import Mathlib

/-!
Verification development for the chatbot streaming ingestion engine
(`src/components/ChatInterface.tsx`).  The engine opens one streaming
request, decodes chunked text into lines, parses `data: ` lines into
frames, accumulates `delta` content, and settles on a `completion`
frame.  Everything below is a shallow embedding of that code, with the
JavaScript semantics (string truthiness, `split('\n')`, the try/catch
nesting) reproduced faithfully.
-/

namespace Chatbot

/-! ## Character-level helpers

These model the JavaScript string primitives used by the decoder loop:
`String.prototype.startsWith`, `String.prototype.trim` (the inputs here
are ASCII, so trimming the four common whitespace characters matches),
and `String.prototype.split('\n')`.  Lines are represented as `List
Char` so that all evaluation is by plain structural computation. -/

def isWsChar (c : Char) : Bool :=
  c = ' ' || c = '\t' || c = '\n' || c = '\r'

/-- Drops leading and trailing whitespace: models `line.trim()`. -/
def trimChars (s : List Char) : List Char :=
  ((s.dropWhile isWsChar).reverse.dropWhile isWsChar).reverse

/-- Models `line.startsWith(pre)`. -/
def startsWithChars : List Char → List Char → Bool
  | [], _ => true
  | _ :: _, [] => false
  | p :: ps, c :: cs => p = c && startsWithChars ps cs

/-- Models `chunk.split('\n')`: e.g. splitting "a\nb\n" gives
["a", "b", ""], exactly as in JavaScript. -/
def splitOnNewline : List Char → List (List Char)
  | [] => [[]]
  | c :: cs =>
    if c = '\n' then [] :: splitOnNewline cs
    else
      match splitOnNewline cs with
      | [] => [[c]]
      | l :: ls => (c :: l) :: ls

/-! ## Data model

`StreamResponse` is the frame record (ChatInterface.tsx lines 17–24),
`Message` the durable output unit (lines 10–15).  JavaScript truthiness
of the string-typed fields is modelled by `truthyStr` / `truthyOpt`:
`null`, `undefined` and `""` are all falsy. -/

structure StreamResponse where
  type : String
  content : String
  thread_id : String
  session_id : String
  has_artifact : Bool
  error_message : Option String
deriving DecidableEq

structure Message where
  id : String
  role : String
  content : String
  timestamp : Nat
deriving DecidableEq

/-- Truthiness of a JavaScript string: only the empty string is falsy. -/
def truthyStr (s : String) : Bool := s ≠ ""

/-- Truthiness of a nullable JavaScript string field. -/
def truthyOpt : Option String → Bool
  | none => false
  | some s => truthyStr s

/-- Callback invocations observable by the caller.  `streamingUpdate`
is `onStreamingUpdate?.(accumulatedContent)` at line 150 (the spec's
`onIncrementalUpdate`); `messageComplete` is `onMessageComplete?.
(finalMessage)` at line 160 (the spec's `onSettled`); `errorFallback`
is the `onMessageComplete?.(errorMessage)` call at line 188, reached
only from the outer catch block (the spec's `onFailed` path). -/
inductive Event where
  | streamingUpdate (content : String)
  | messageComplete (msg : Message)
  | errorFallback (msg : Message)
deriving DecidableEq

/-- Outcome of processing one frame or one line inside the read loop:
either the loop continues with an updated accumulation buffer, or the
function returned at line 166 after settling. -/
inductive FrameOutcome where
  | next (acc : String)
  | settled
deriving DecidableEq

/-- The fixed fallback text built at line 184. -/
def apologyText : String :=
  "Sorry, I encountered an error while processing your request. Please try again."

/-- Models lines 137–167, the body applied to a successfully parsed
frame `data`, given the active conversation id `chatId`, the current
time `now` (for `Date.now()` / `new Date()`), and the accumulation
buffer `acc`.

Note the first branch: `throw new Error(data.error_message)` at line
139 is lexically inside the per-line `try` starting at line 127, so it
is caught by the `catch (parseError)` at line 168, which logs and
continues with the next line.  Processing an error frame therefore
changes nothing and emits nothing. -/
def processFrame (chatId : String) (now : Nat) (acc : String)
    (data : StreamResponse) : List Event × FrameOutcome :=
  if truthyOpt data.error_message then
    ([], .next acc)
  else if truthyStr data.thread_id && data.thread_id ≠ chatId then
    ([], .next acc)
  else if data.type = "delta" && truthyStr data.content then
    let acc' := acc ++ data.content
    ([.streamingUpdate acc'], .next acc')
  else if data.type = "completion" then
    ([.messageComplete ⟨toString now, "assistant", acc, now⟩], .settled)
  else
    ([], .next acc)

/-- Folds `processFrame` over a sequence of already-parsed frames in
arrival order, stopping at the `return` triggered by a completion
frame, exactly as the line loop at lines 125–173 does for the lines
that carry parseable frames. -/
def processFrames (chatId : String) (now : Nat) (acc : String) :
    List StreamResponse → List Event × FrameOutcome
  | [] => ([], .next acc)
  | f :: fs =>
    match processFrame chatId now acc f with
    | (evs, .next acc') =>
      let (evs', o) := processFrames chatId now acc' fs
      (evs ++ evs', o)
    | (evs, .settled) => (evs, .settled)

/-- Concatenation of the `content` fields of a frame sequence in
arrival order. -/
def concatContents (frames : List StreamResponse) : String :=
  frames.foldr (fun f r => f.content ++ r) ""

/-! ## Frame parsing -/

/-- A parsed JSON value, restricted to the value shapes that occur in
the wire protocol of spec section 6 (strings, booleans, null). -/
inductive JVal where
  | str (s : String)
  | boolean (b : Bool)
  | null
deriving DecidableEq

/-- Drops leading JSON whitespace. -/
def skipWs (s : List Char) : List Char := s.dropWhile isWsChar

/-- Parses a JSON string literal starting at an opening quote,
supporting the `\"` and `\\` escapes (the only ones the wire frames
use).  Returns the decoded string and the rest of the input. -/
def parseStringLit : List Char → Option (String × List Char)
  | '"' :: rest => go rest []
  | _ => none
where
  go : List Char → List Char → Option (String × List Char)
    | [], _ => none
    | '"' :: rest, out => some (⟨out.reverse⟩, rest)
    | '\\' :: '"' :: rest, out => go rest ('"' :: out)
    | '\\' :: '\\' :: rest, out => go rest ('\\' :: out)
    | c :: rest, out => go rest (c :: out)

/-- Parses one JSON value of the restricted grammar. -/
def parseJVal (s : List Char) : Option (JVal × List Char) :=
  match s with
  | 't' :: 'r' :: 'u' :: 'e' :: rest => some (.boolean true, rest)
  | 'f' :: 'a' :: 'l' :: 's' :: 'e' :: rest => some (.boolean false, rest)
  | 'n' :: 'u' :: 'l' :: 'l' :: rest => some (.null, rest)
  | _ =>
    match parseStringLit s with
    | some (str, rest) => some (.str str, rest)
    | none => none

/-- Parses the `"key": value` pairs of a flat JSON object, after the
opening brace.  `fuel` bounds the recursion; callers pass the input
length, which suffices because every pair consumes at least one
character. -/
def parsePairs (fuel : Nat) (s : List Char) :
    Option (List (String × JVal) × List Char) :=
  match fuel with
  | 0 => none
  | fuel + 1 =>
    match skipWs s with
    | '}' :: rest => some ([], rest)
    | s' =>
      match parseStringLit s' with
      | none => none
      | some (key, rest) =>
        match skipWs rest with
        | ':' :: rest' =>
          match parseJVal (skipWs rest') with
          | none => none
          | some (v, rest'') =>
            match skipWs rest'' with
            | ',' :: rest''' =>
              match parsePairs fuel rest''' with
              | some (pairs, rest4) => some ((key, v) :: pairs, rest4)
              | none => none
            | '}' :: rest''' => some ([(key, v)], rest''')
            | _ => none
        | _ => none

/-- Looks a key up among the parsed pairs; a missing key behaves like
the JavaScript `undefined` (falsy). -/
def lookupField (pairs : List (String × JVal)) (key : String) : Option JVal :=
  match pairs.find? (fun p => p.1 = key) with
  | some p => some p.2
  | none => none

/-- String-or-falsy field access: a string value is kept, anything
else (null, missing, boolean) behaves as falsy `""` in the guards the
reducer applies to `type`, `content` and `thread_id`. -/
def strField (pairs : List (String × JVal)) (key : String) : String :=
  match lookupField pairs key with
  | some (.str s) => s
  | _ => ""

/-- Modelled from the spec: the platform `JSON.parse` applied at
ChatInterface.tsx line 135 (`JSON.parse(jsonStr) as StreamResponse`)
to the flat wire object of spec section 6.  `JSON.parse` is a browser
builtin whose source is not in this repository; this model parses the
flat object shape `{"key": string|bool|null, ...}` and rejects
anything else (a rejection models the `SyntaxError` that the per-line
catch at line 168 swallows).  The `as StreamResponse` cast performs no
validation, so missing fields default to falsy values, exactly as the
`undefined` fields would in JavaScript. -/
def parseStreamResponse (s : List Char) : Option StreamResponse :=
  match skipWs s with
  | '{' :: rest =>
    match parsePairs (rest.length + 1) rest with
    | none => none
    | some (pairs, rest') =>
      if skipWs rest' = [] then
        some
          { type := strField pairs "type"
            content := strField pairs "content"
            thread_id := strField pairs "thread_id"
            session_id := strField pairs "session_id"
            has_artifact :=
              match lookupField pairs "has_artifact" with
              | some (.boolean b) => b
              | _ => false
            error_message :=
              match lookupField pairs "error_message" with
              | some (.str s) => some s
              | _ => none }
      else none
  | _ => none

/-! ## Line and chunk processing -/

/-- Models the body of the line loop, lines 125–172: the `data: `
prefix test, the always-true `line.trim() !== 'data: '` guard, the
`slice(6)`, the empty / `[DONE]` skip, the parse (whose failure is
swallowed by the catch at line 168), and then `processFrame`. -/
def processLine (chatId : String) (now : Nat) (acc : String)
    (line : List Char) : List Event × FrameOutcome :=
  if startsWithChars ("data: ".data) line = true
      ∧ trimChars line ≠ "data: ".data then
    if trimChars (line.drop 6) = [] ∨ trimChars (line.drop 6) = "[DONE]".data then
      ([], .next acc)
    else
      match parseStreamResponse (line.drop 6) with
      | some data => processFrame chatId now acc data
      | none => ([], .next acc)
  else
    ([], .next acc)

/-- Processes the lines of one chunk in order, stopping at the
`return` of a completion frame (line 166). -/
def processLines (chatId : String) (now : Nat) (acc : String) :
    List (List Char) → List Event × FrameOutcome
  | [] => ([], .next acc)
  | l :: ls =>
    match processLine chatId now acc l with
    | (evs, .next acc') =>
      let (evs', o) := processLines chatId now acc' ls
      (evs ++ evs', o)
    | (evs, .settled) => (evs, .settled)

/-! ## The read loop -/

/-- One observation of the transport at the `await reader.read()`
boundary (line 118): a decoded text chunk, the abort signal (either
`signal.aborted` at line 120 or the `AbortError` rejection filtered at
line 177), or a transport failure that rejects the read with an
ordinary error. -/
inductive StreamInput where
  | chunk (s : List Char)
  | abortSignal
  | transportError
deriving DecidableEq

/-- Models the `while (true)` read loop (lines 117–174) together with
the outer catch (lines 176–189): an exhausted input list is the
transport's `done`, which breaks the loop with no callback; an abort
breaks the loop (or rejects with `AbortError`, which the catch
filters), again with no callback; a transport error reaches the outer
catch, which emits the fixed fallback message; a chunk is split on
newlines and processed line by line, stopping for good when a
completion frame returns.  Note that each chunk is split independently
(`chunk.split('\n')` at line 123): no partial trailing line is carried
over to the next chunk. -/
def runLoop (chatId : String) (now : Nat) (acc : String) :
    List StreamInput → List Event
  | [] => []
  | .abortSignal :: _ => []
  | .transportError :: _ =>
    [.errorFallback ⟨toString now, "assistant", apologyText, now⟩]
  | .chunk c :: rest =>
    match processLines chatId now acc (splitOnNewline c) with
    | (evs, .next acc') => evs ++ runLoop chatId now acc' rest
    | (evs, .settled) => evs

/-- How one run of the loop terminated: via the completion-frame
return (`settledO`), the outer catch on a transport error (`failedO`),
cancellation (`abortedO`), or the transport closing without a
completion frame (`exhaustedO`). -/
inductive RunOutcome where
  | settledO
  | failedO
  | abortedO
  | exhaustedO
deriving DecidableEq

/-- The terminal cause of `runLoop` on the same inputs. -/
def runOutcome (chatId : String) (now : Nat) (acc : String) :
    List StreamInput → RunOutcome
  | [] => .exhaustedO
  | .abortSignal :: _ => .abortedO
  | .transportError :: _ => .failedO
  | .chunk c :: rest =>
    match processLines chatId now acc (splitOnNewline c) with
    | (_, .next acc') => runOutcome chatId now acc' rest
    | (_, .settled) => .settledO

/-- One full session: `streamApiResponse` (lines 75–196) starts from
an empty accumulation buffer (line 111) and drives the read loop. -/
def streamApiResponse (chatId : String) (now : Nat)
    (inputs : List StreamInput) : List Event :=
  runLoop chatId now "" inputs

/-- A terminal callback: `onSettled` (line 160) or the error fallback
(line 188).  Incremental updates are not terminal. -/
def isTerminalEvent : Event → Bool
  | .streamingUpdate _ => false
  | .messageComplete _ => true
  | .errorFallback _ => true

/-- Number of terminal callbacks in an event trace. -/
def terminalCount (evs : List Event) : Nat :=
  evs.countP (fun e => isTerminalEvent e)

/-- Checks that a terminal callback, if any, is the last event. -/
def noEventAfterTerminalB : List Event → Bool
  | [] => true
  | e :: rest =>
    if isTerminalEvent e then rest.isEmpty else noEventAfterTerminalB rest

/-- How many terminal callbacks each run outcome implies. -/
def outcomeTerminalCount : RunOutcome → Nat
  | .settledO => 1
  | .failedO => 1
  | .abortedO => 0
  | .exhaustedO => 0

/-! ## Streaming text decoding

Modelled from the spec: the platform `TextDecoder` created at
ChatInterface.tsx line 110 and invoked with `stream: true` at line
122 is a browser builtin whose source is not in this repository.  Per
spec section 4.2 it decodes UTF-8 and buffers an incomplete trailing
multi-byte sequence across chunk boundaries instead of emitting
malformed text.  Bytes are `Nat`s below 256, decoded output is the
list of Unicode code points (as `Nat`s). -/

/-- A UTF-8 continuation byte, `10xxxxxx`. -/
def isCont (b : Nat) : Bool := 0x80 ≤ b && b < 0xC0

/-- Prepends one decoded code point to a decoder result. -/
def prependCp (c : Nat) (r : List Nat × List Nat) : List Nat × List Nat :=
  (c :: r.1, r.2)

/-- Modelled from the spec: one pass of the streaming UTF-8 decoder
over a byte buffer.  Returns the decoded code points together with the
incomplete trailing sequence that a `stream: true` decoder keeps
pending for the next chunk.  Invalid bytes produce the replacement
character U+FFFD and are skipped, as the non-fatal `TextDecoder`
does. -/
def utf8DecodeCore : List Nat → List Nat × List Nat
  | [] => ([], [])
  | [b] =>
    if b < 0x80 then ([b], [])
    else if b < 0xC0 then ([0xFFFD], [])
    else if b < 0xF8 then ([], [b])
    else ([0xFFFD], [])
  | [b, b1] =>
    if b < 0x80 then prependCp b (utf8DecodeCore [b1])
    else if b < 0xC0 then prependCp 0xFFFD (utf8DecodeCore [b1])
    else if b < 0xE0 then
      if isCont b1 then ([(b - 0xC0) * 0x40 + (b1 - 0x80)], [])
      else prependCp 0xFFFD (utf8DecodeCore [b1])
    else if b < 0xF8 then
      if isCont b1 then ([], [b, b1])
      else prependCp 0xFFFD (utf8DecodeCore [b1])
    else prependCp 0xFFFD (utf8DecodeCore [b1])
  | [b, b1, b2] =>
    if b < 0x80 then prependCp b (utf8DecodeCore [b1, b2])
    else if b < 0xC0 then prependCp 0xFFFD (utf8DecodeCore [b1, b2])
    else if b < 0xE0 then
      if isCont b1 then prependCp ((b - 0xC0) * 0x40 + (b1 - 0x80)) (utf8DecodeCore [b2])
      else prependCp 0xFFFD (utf8DecodeCore [b1, b2])
    else if b < 0xF0 then
      if isCont b1 && isCont b2 then
        ([(b - 0xE0) * 0x1000 + (b1 - 0x80) * 0x40 + (b2 - 0x80)], [])
      else prependCp 0xFFFD (utf8DecodeCore [b1, b2])
    else if b < 0xF8 then
      if isCont b1 && isCont b2 then ([], [b, b1, b2])
      else prependCp 0xFFFD (utf8DecodeCore [b1, b2])
    else prependCp 0xFFFD (utf8DecodeCore [b1, b2])
  | b :: b1 :: b2 :: b3 :: bs =>
    if b < 0x80 then prependCp b (utf8DecodeCore (b1 :: b2 :: b3 :: bs))
    else if b < 0xC0 then prependCp 0xFFFD (utf8DecodeCore (b1 :: b2 :: b3 :: bs))
    else if b < 0xE0 then
      if isCont b1 then
        prependCp ((b - 0xC0) * 0x40 + (b1 - 0x80)) (utf8DecodeCore (b2 :: b3 :: bs))
      else prependCp 0xFFFD (utf8DecodeCore (b1 :: b2 :: b3 :: bs))
    else if b < 0xF0 then
      if isCont b1 && isCont b2 then
        prependCp ((b - 0xE0) * 0x1000 + (b1 - 0x80) * 0x40 + (b2 - 0x80))
          (utf8DecodeCore (b3 :: bs))
      else prependCp 0xFFFD (utf8DecodeCore (b1 :: b2 :: b3 :: bs))
    else if b < 0xF8 then
      if isCont b1 && isCont b2 && isCont b3 then
        prependCp
          ((b - 0xF0) * 0x40000 + (b1 - 0x80) * 0x1000
            + (b2 - 0x80) * 0x40 + (b3 - 0x80))
          (utf8DecodeCore bs)
      else prependCp 0xFFFD (utf8DecodeCore (b1 :: b2 :: b3 :: bs))
    else prependCp 0xFFFD (utf8DecodeCore (b1 :: b2 :: b3 :: bs))

/-- A well-formed UTF-8 byte sequence: ASCII bytes and two- to
four-byte sequences with valid lead and continuation bytes. -/
def validUtf8B : List Nat → Bool
  | [] => true
  | [b] => b < 0x80
  | [b, b1] =>
    if b < 0x80 then validUtf8B [b1]
    else (0xC2 ≤ b && b < 0xE0) && isCont b1
  | [b, b1, b2] =>
    if b < 0x80 then validUtf8B [b1, b2]
    else if 0xC2 ≤ b && b < 0xE0 then isCont b1 && validUtf8B [b2]
    else (0xE0 ≤ b && b < 0xF0) && isCont b1 && isCont b2
  | b :: b1 :: b2 :: b3 :: bs =>
    if b < 0x80 then validUtf8B (b1 :: b2 :: b3 :: bs)
    else if 0xC2 ≤ b && b < 0xE0 then isCont b1 && validUtf8B (b2 :: b3 :: bs)
    else if 0xE0 ≤ b && b < 0xF0 then isCont b1 && isCont b2 && validUtf8B (b3 :: bs)
    else if 0xF0 ≤ b && b < 0xF5 then
      isCont b1 && isCont b2 && isCont b3 && validUtf8B bs
    else false

/-- Feeds a sequence of byte chunks through the streaming decoder,
threading the pending-bytes state across chunk boundaries as the
`stream: true` decoder does; returns all decoded code points and the
final pending state. -/
def decodeChunksAux (pending : List Nat) (out : List Nat) :
    List (List Nat) → List Nat × List Nat
  | [] => (out, pending)
  | c :: cs =>
    decodeChunksAux (utf8DecodeCore (pending ++ c)).2
      (out ++ (utf8DecodeCore (pending ++ c)).1) cs

/-- Streaming decode of a chunked byte stream from the initial state. -/
def decodeChunks (chunks : List (List Nat)) : List Nat × List Nat :=
  decodeChunksAux [] [] chunks

/-! ## Component-level session management

This models the `ChatInterface` component state that governs session
lifetime: `isStreaming` (line 51), the single `abortControllerRef`
(line 55), the reset-on-chat-change effect (lines 66–73),
`handleSendMessage` (lines 198–206) and `handleStopGeneration` (lines
208–215).  Each invocation of `streamApiResponse` is a `Session`
identified by a fresh id (modelling the per-call `AbortController`
and closure state).  JavaScript runs user actions as macrotasks and
the pending continuation of an aborted or finished session (its
`catch`/`finally`, lines 176–195) as a microtask that completes
before the next user action; the model therefore folds that finalizer
into the aborting action itself. -/

structure Session where
  sid : Nat
  chatId : String
  inputs : List StreamInput
  acc : String
  aborted : Bool
  finished : Bool
deriving DecidableEq

/-- An entry of the observable history: a session starting
(`streamApiResponse` invoked) or a session invoking a callback. -/
inductive TraceEntry where
  | started (sid : Nat)
  | emitted (sid : Nat) (e : Event)
deriving DecidableEq

structure AppState where
  chatId : String
  now : Nat
  isStreaming : Bool
  currentSid : Option Nat
  sessions : List Session
  nextSid : Nat
  trace : List TraceEntry
deriving DecidableEq

/-- A session that can still emit callbacks: neither aborted nor
finished. -/
def activeS (s : Session) : Bool := !s.aborted && !s.finished

/-- User-level and transport-level steps that drive the component:
`send` is `handleSendMessage` with the transport inputs the new
session will observe, `switchChat` is a `chatId` prop change (the
effect at lines 66–73), `stop` is `handleStopGeneration`, and
`sessionStep sid` lets session `sid` observe its next transport
input. -/
inductive Action where
  | send (message : String) (inputs : List StreamInput)
  | switchChat (newId : String)
  | stop
  | sessionStep (sid : Nat)

/-- Aborts the session owned by the current `abortControllerRef`
(lines 67–69 and 209–211); the aborted session's `catch` filters the
`AbortError` (line 177) and its `finally` (lines 190–194) runs before
the next action, so the session is both aborted and finished with no
further events, and the controller reference is cleared. -/
def abortCurrent (st : AppState) : AppState :=
  { st with
    sessions := st.sessions.map fun s =>
      if st.currentSid = some s.sid then { s with aborted := true, finished := true }
      else s
    currentSid := none }

/-- The `finally` block of a session ending on its own (lines
190–194): mark it finished, clear the streaming flag and the
controller reference. -/
def finalizeSession (st : AppState) (sid : Nat) : AppState :=
  { st with
    sessions := st.sessions.map fun s =>
      if s.sid = sid then { s with finished := true } else s
    isStreaming := false
    currentSid := none }

/-- Applies the result of one chunk's line processing to the component
state: events are appended to the trace; on `next` the session records
its new buffer and remaining inputs; on `settled` the session runs its
`finally`. -/
def applyChunkResult (st : AppState) (sid : Nat) (rest : List StreamInput)
    (r : List Event × FrameOutcome) : AppState :=
  match r.2 with
  | .next acc' =>
    { st with
      sessions := st.sessions.map fun t =>
        if t.sid = sid then { t with inputs := rest, acc := acc' } else t
      trace := st.trace ++ r.1.map (.emitted sid) }
  | .settled =>
    finalizeSession { st with trace := st.trace ++ r.1.map (.emitted sid) } sid

/-- Processing of one decoded chunk by session `sid` (one iteration of
lines 117–174 inside the component). -/
def sessionStepChunk (st : AppState) (sid : Nat) (s : Session) (c : List Char)
    (rest : List StreamInput) : AppState :=
  applyChunkResult st sid rest (processLines s.chatId st.now s.acc (splitOnNewline c))

/-- Dispatch on the next transport input of session `sid`. -/
def sessionStepInput (st : AppState) (sid : Nat) (s : Session) : AppState :=
  match s.inputs with
  | [] => finalizeSession st sid
  | .abortSignal :: _ => finalizeSession st sid
  | .transportError :: _ =>
    finalizeSession
      { st with trace := st.trace
          ++ [.emitted sid
                (.errorFallback ⟨toString st.now, "assistant", apologyText, st.now⟩)] }
      sid
  | .chunk c :: rest => sessionStepChunk st sid s c rest

/-- Session `sid` observes its next transport input, mirroring one
iteration of the read loop.  An aborted or finished session does
nothing (the loop broke at line 120 or already returned). -/
def sessionStepFn (st : AppState) (sid : Nat) : AppState :=
  match st.sessions.find? (fun s => s.sid = sid) with
  | none => st
  | some s =>
    if s.aborted || s.finished then st
    else sessionStepInput st sid s

/-- One component step.  `send`: the guard at line 199 drops empty
messages and, crucially, any send while `isStreaming`; otherwise a new
session starts (lines 76–83) and becomes the current one.
`switchChat`: the effect at lines 66–73 aborts the current session and
resets the streaming state.  `stop`: lines 208–215, the same abort. -/
def appStep (st : AppState) : Action → AppState
  | .send msg inputs =>
    if trimChars msg.data = [] ∨ st.isStreaming then st
    else
      { st with
        isStreaming := true
        currentSid := some st.nextSid
        sessions := ⟨st.nextSid, st.chatId, inputs, "", false, false⟩ :: st.sessions
        nextSid := st.nextSid + 1
        trace := st.trace ++ [.started st.nextSid] }
  | .switchChat newId =>
    let st' := abortCurrent st
    { st' with chatId := newId, isStreaming := false }
  | .stop =>
    let st' := abortCurrent st
    { st' with isStreaming := false }
  | .sessionStep sid => sessionStepFn st sid

/-- The component as mounted: no session, nothing streaming. -/
def initState (chatId0 : String) (now : Nat) : AppState :=
  { chatId := chatId0, now := now, isStreaming := false, currentSid := none,
    sessions := [], nextSid := 0, trace := [] }

/-- Runs a list of component steps from the initial state. -/
def runApp (chatId0 : String) (now : Nat) (acts : List Action) : AppState :=
  acts.foldl appStep (initState chatId0 now)

/-- Number of sessions that can still emit callbacks. -/
def countActive (st : AppState) : Nat :=
  (st.sessions.filter fun s => activeS s).length

/-- The largest session id with a `started` entry in the trace (or
`m` if none is larger). -/
def maxStartedFrom (m : Nat) : List TraceEntry → Nat
  | [] => m
  | .started b :: rest => maxStartedFrom (max m b) rest
  | .emitted _ _ :: rest => maxStartedFrom m rest

/-- Checks that every `emitted a _` entry is emitted by a session at
least as new as every session started before it: once a newer session
has started, an older session never emits again. -/
def noLateEmitAux (m : Nat) : List TraceEntry → Bool
  | [] => true
  | .started b :: rest => noLateEmitAux (max m b) rest
  | .emitted a _ :: rest => decide (m ≤ a) && noLateEmitAux m rest

/-- The session-management invariant maintained by every component
step: an active session is the unique current one while `isStreaming`
is set, session ids are fresh and distinct, and the trace never shows
an older session emitting after a newer one started. -/
structure InvS (st : AppState) : Prop where
  active_streaming : ∀ s ∈ st.sessions, activeS s = true → st.isStreaming = true
  active_current : ∀ s ∈ st.sessions, activeS s = true → st.currentSid = some s.sid
  sid_lt : ∀ s ∈ st.sessions, s.sid < st.nextSid
  sid_distinct : st.sessions.Pairwise (fun a b => a.sid ≠ b.sid)
  maxStarted_le : maxStartedFrom 0 st.trace ≤ st.nextSid
  active_maxStarted : ∀ s ∈ st.sessions, activeS s = true →
    maxStartedFrom 0 st.trace ≤ s.sid
  noLate : noLateEmitAux 0 st.trace = true

/-! ## Supporting lemmas -/

theorem strAppendEmpty (s : String) : s ++ "" = s := by
  cases s with
  | mk data => show String.mk (data ++ []) = String.mk data
               rw [List.append_nil]

theorem strEmptyAppend (s : String) : "" ++ s = s := by
  cases s with
  | mk data => rfl

theorem strAppendAssoc (a b c : String) : a ++ b ++ c = a ++ (b ++ c) := by
  cases a with
  | mk da =>
    cases b with
    | mk db =>
      cases c with
      | mk dc => show String.mk (da ++ db ++ dc) = String.mk (da ++ (db ++ dc))
                 rw [List.append_assoc]

theorem processFrame_nonmatching_noop (chatId : String) (now : Nat) (acc : String)
    (data : StreamResponse) (ht : data.thread_id ≠ "") (hm : data.thread_id ≠ chatId) :
    processFrame chatId now acc data = ([], .next acc) := by
  rw [processFrame]
  by_cases he : truthyOpt data.error_message
  · rw [if_pos he]
  · rw [if_neg he, if_pos]
    simp [truthyStr, ht, hm]

theorem processFrames_deltas (chatId : String) (now : Nat) :
    ∀ (frames : List StreamResponse) (acc : String),
    (∀ f ∈ frames, f.type = "delta" ∧ f.thread_id = chatId
      ∧ truthyOpt f.error_message = false) →
    (processFrames chatId now acc frames).2
      = .next (acc ++ concatContents frames) := by
  intro frames
  induction frames with
  | nil =>
    intro acc _
    simp [processFrames, concatContents, strAppendEmpty]
  | cons f fs ih =>
    intro acc h
    obtain ⟨hty, hth, herr⟩ := h f (List.mem_cons_self f fs)
    have hfs := fun g hg => h g (List.mem_cons_of_mem f hg)
    rw [processFrames]
    by_cases hc : f.content = ""
    · have : processFrame chatId now acc f = ([], .next acc) := by
        rw [processFrame, if_neg (by simp [herr]), if_neg (by simp [hth]),
          if_neg (by simp [truthyStr, hc]), if_neg (by simp [hty])]
      rw [this]
      simp only [concatContents, List.foldr_cons]
      rw [ih acc hfs]
      simp [concatContents, hc, strEmptyAppend]
    · have : processFrame chatId now acc f
          = ([.streamingUpdate (acc ++ f.content)], .next (acc ++ f.content)) := by
        rw [processFrame, if_neg (by simp [herr]), if_neg (by simp [hth]),
          if_pos (by simp [truthyStr, hty, hc])]
      rw [this]
      simp only [concatContents, List.foldr_cons]
      rw [ih (acc ++ f.content) hfs]
      simp [concatContents, strAppendAssoc]

/-- Claim C2: for every sequence of delta frames whose thread id
matches the active conversation, the final accumulated text equals the
concatenation of their content fields in arrival order; and the
scenario "Hel", "lo", completion yields exactly one settled callback
whose message has content "Hello", role assistant, and the current
timestamp. -/
theorem c2_delta_concat_and_scenario :
    (∀ (chatId : String) (now : Nat) (acc : String) (frames : List StreamResponse),
      (∀ f ∈ frames, f.type = "delta" ∧ f.thread_id = chatId
        ∧ truthyOpt f.error_message = false) →
      (processFrames chatId now acc frames).2 = .next (acc ++ concatContents frames))
    ∧ ∀ now : Nat,
      processFrames "1" now ""
        [⟨"delta", "Hel", "1", "session_1", false, none⟩,
         ⟨"delta", "lo", "1", "session_1", false, none⟩,
         ⟨"completion", "", "1", "session_1", false, none⟩]
      = ([.streamingUpdate "Hel", .streamingUpdate "Hello",
          .messageComplete ⟨toString now, "assistant", "Hello", now⟩], .settled) := by
  constructor
  · intro chatId now acc frames h
    exact processFrames_deltas chatId now frames acc h
  · intro now
    rfl

theorem c2_witness :
    (∀ f ∈ ([⟨"delta", "Hel", "1", "session_1", false, none⟩,
             ⟨"delta", "lo", "1", "session_1", false, none⟩] : List StreamResponse),
      f.type = "delta" ∧ f.thread_id = "1" ∧ truthyOpt f.error_message = false)
    ∧ (processFrames "1" 7 ""
        [⟨"delta", "Hel", "1", "session_1", false, none⟩,
         ⟨"delta", "lo", "1", "session_1", false, none⟩]).2
      = .next ("" ++ concatContents
          [⟨"delta", "Hel", "1", "session_1", false, none⟩,
           ⟨"delta", "lo", "1", "session_1", false, none⟩]) :=
  ⟨by decide, c2_delta_concat_and_scenario.1 "1" 7 "" _ (by decide)⟩

/-- Claim C10: a completion frame's own content field is ignored; the
settled message's content is exactly the accumulated text from prior
accepted delta frames, whatever `data.content` carries. -/
theorem c10_completion_content_ignored (chatId : String) (now : Nat) (acc : String)
    (data : StreamResponse) (hty : data.type = "completion")
    (herr : truthyOpt data.error_message = false)
    (hth : data.thread_id = "" ∨ data.thread_id = chatId) :
    processFrame chatId now acc data
      = ([.messageComplete ⟨toString now, "assistant", acc, now⟩], .settled) := by
  rw [processFrame, if_neg (by simp [herr]),
    if_neg (by rcases hth with h | h <;> simp [truthyStr, h]),
    if_neg (by simp [hty]), if_pos (by simp [hty])]

theorem c10_witness :
    (⟨"completion", "THIS CONTENT IS DROPPED", "1", "session_1", false, none⟩ :
        StreamResponse).type = "completion"
    ∧ processFrame "1" 5 "partial"
        ⟨"completion", "THIS CONTENT IS DROPPED", "1", "session_1", false, none⟩
      = ([.messageComplete ⟨toString 5, "assistant", "partial", 5⟩], .settled) :=
  ⟨by decide,
   c10_completion_content_ignored "1" 5 "partial" _ (by decide) (by decide)
     (Or.inr (by decide))⟩

/-- Claim C9: a delta frame whose thread id is the empty string
bypasses the conversation filter (content is appended and the
incremental callback fires even for a different active conversation);
only frames with a non-empty, non-matching thread id are discarded. -/
theorem c9_empty_thread_bypasses_filter :
    (∀ (chatId : String) (now : Nat) (acc : String) (data : StreamResponse),
      data.thread_id = "" → data.type = "delta" → data.content ≠ "" →
      truthyOpt data.error_message = false →
      processFrame chatId now acc data
        = ([.streamingUpdate (acc ++ data.content)], .next (acc ++ data.content)))
    ∧ ∀ (chatId : String) (now : Nat) (acc : String) (data : StreamResponse),
      data.thread_id ≠ "" → data.thread_id ≠ chatId →
      processFrame chatId now acc data = ([], .next acc) := by
  constructor
  · intro chatId now acc data hth hty hc herr
    rw [processFrame, if_neg (by simp [herr]), if_neg (by simp [truthyStr, hth]),
      if_pos (by simp [truthyStr, hty, hc])]
  · intro chatId now acc data hth hm
    exact processFrame_nonmatching_noop chatId now acc data hth hm

theorem c9_witness :
    (⟨"delta", "ghost", "", "session_1", false, none⟩ : StreamResponse).thread_id = ""
    ∧ processFrame "1" 0 "seen "
        ⟨"delta", "ghost", "", "session_1", false, none⟩
      = ([.streamingUpdate ("seen " ++ "ghost")], .next ("seen " ++ "ghost")) :=
  ⟨by decide,
   c9_empty_thread_bypasses_filter.1 "1" 0 "seen " _ (by decide) (by decide) (by decide)
     (by decide)⟩

/-- Claim C5, counterexample: a delta frame whose thread id (the
empty string) differs from the active conversation id "1" is *not*
discarded: it appends to the buffer and emits a callback, refuting the
claim that every frame with a non-matching thread id is a no-op. -/
theorem c5_counterexample :
    (⟨"delta", "x", "", "session_1", false, none⟩ : StreamResponse).thread_id ≠ "1"
    ∧ processFrame "1" 0 "" ⟨"delta", "x", "", "session_1", false, none⟩
        ≠ ([], .next "") := by
  constructor
  · decide
  · decide

/-- Claim C5, amended: every frame whose thread id is non-empty and
does not match the active conversation's id leaves the accumulation
buffer unchanged and emits no callback. -/
theorem c5_nonempty_nonmatching_discarded (chatId : String) (now : Nat) (acc : String)
    (data : StreamResponse) (hne : data.thread_id ≠ "") (hnm : data.thread_id ≠ chatId) :
    processFrame chatId now acc data = ([], .next acc) :=
  processFrame_nonmatching_noop chatId now acc data hne hnm

theorem c5_witness :
    (⟨"delta", "x", "42", "session_1", false, none⟩ : StreamResponse).thread_id ≠ ""
    ∧ processFrame "1" 0 "kept" ⟨"delta", "x", "42", "session_1", false, none⟩
      = ([], .next "kept") :=
  ⟨by decide, c5_nonempty_nonmatching_discarded "1" 0 "kept" _ (by decide) (by decide)⟩

/-- Claim C1, evaluated at the failing input: a frame with
`error_message` "boom" does *not* fail the session: the `throw` at
line 139 is caught by the per-line catch at line 168, so no callback
fires for it, subsequent frames are still consumed, and the session
even settles normally. -/
theorem c1_error_frame_swallowed :
    processFrames "1" 0 ""
      [⟨"delta", "", "1", "session_1", false, some "boom"⟩,
       ⟨"delta", "after", "1", "session_1", false, none⟩,
       ⟨"completion", "", "1", "session_1", false, none⟩]
    = ([.streamingUpdate "after",
        .messageComplete ⟨"0", "assistant", "after", 0⟩], .settled) := by
  decide

theorem terminalCount_nil : terminalCount [] = 0 := rfl

theorem terminalCount_append (l1 l2 : List Event) :
    terminalCount (l1 ++ l2) = terminalCount l1 + terminalCount l2 := by
  simp [terminalCount, List.countP_append]

theorem noEventAfterTerminalB_append_left (l1 l2 : List Event)
    (h : terminalCount l1 = 0) :
    noEventAfterTerminalB (l1 ++ l2) = noEventAfterTerminalB l2 := by
  induction l1 with
  | nil => rfl
  | cons e es ih =>
    rw [terminalCount, List.countP_cons] at h
    have he : isTerminalEvent e = false := by
      by_cases hc : isTerminalEvent e = true
      · simp [hc] at h
      · simpa using hc
    rw [List.cons_append, noEventAfterTerminalB, if_neg (by simp [he])]
    exact ih (by simpa [terminalCount, he] using h)

theorem processFrame_next_tc (chatId : String) (now : Nat) (acc : String)
    (d : StreamResponse) (evs : List Event) (a : String)
    (h : processFrame chatId now acc d = (evs, .next a)) : terminalCount evs = 0 := by
  rw [processFrame] at h
  split_ifs at h <;> injection h with h1 h2 <;> subst h1 <;>
    first
      | rfl
      | exact (FrameOutcome.noConfusion h2)

theorem processFrame_settled_shape (chatId : String) (now : Nat) (acc : String)
    (d : StreamResponse) (evs : List Event)
    (h : processFrame chatId now acc d = (evs, .settled)) :
    ∃ m, evs = [Event.messageComplete m] := by
  rw [processFrame] at h
  split_ifs at h <;> injection h with h1 h2 <;> subst h1
  all_goals first
    | exact (FrameOutcome.noConfusion h2)
    | exact ⟨_, rfl⟩

theorem processLine_next_tc (chatId : String) (now : Nat) (acc : String)
    (line : List Char) (evs : List Event) (a : String)
    (h : processLine chatId now acc line = (evs, .next a)) : terminalCount evs = 0 := by
  rw [processLine] at h
  split_ifs at h
  · injection h with h1 _; subst h1; rfl
  · revert h
    cases hp : parseStreamResponse (List.drop 6 line) with
    | none => intro h; injection h with h1 _; subst h1; rfl
    | some data => intro h; exact processFrame_next_tc chatId now acc data evs a h
  · injection h with h1 _; subst h1; rfl

theorem processLine_settled_shape (chatId : String) (now : Nat) (acc : String)
    (line : List Char) (evs : List Event)
    (h : processLine chatId now acc line = (evs, .settled)) :
    ∃ m, evs = [Event.messageComplete m] := by
  rw [processLine] at h
  split_ifs at h
  · injection h with _ h2; exact (FrameOutcome.noConfusion h2)
  · revert h
    cases hp : parseStreamResponse (List.drop 6 line) with
    | none => intro h; injection h with _ h2; exact (FrameOutcome.noConfusion h2)
    | some data => intro h; exact processFrame_settled_shape chatId now acc data evs h
  · injection h with _ h2; exact (FrameOutcome.noConfusion h2)

theorem processLines_cons_next (chatId : String) (now : Nat) (acc acc' : String)
    (l : List Char) (ls : List (List Char)) (evs1 : List Event)
    (hl : processLine chatId now acc l = (evs1, .next acc')) :
    processLines chatId now acc (l :: ls)
      = (evs1 ++ (processLines chatId now acc' ls).1,
         (processLines chatId now acc' ls).2) := by
  rw [processLines, hl]

theorem processLines_cons_settled (chatId : String) (now : Nat) (acc : String)
    (l : List Char) (ls : List (List Char)) (evs1 : List Event)
    (hl : processLine chatId now acc l = (evs1, .settled)) :
    processLines chatId now acc (l :: ls) = (evs1, .settled) := by
  rw [processLines, hl]

theorem processLines_next_tc (chatId : String) (now : Nat) :
    ∀ (ls : List (List Char)) (acc : String) (evs : List Event) (a : String),
    processLines chatId now acc ls = (evs, .next a) → terminalCount evs = 0 := by
  intro ls
  induction ls with
  | nil =>
    intro acc evs a h
    injection h with h1 _; subst h1; rfl
  | cons l ls ih =>
    intro acc evs a h
    rcases hl : processLine chatId now acc l with ⟨evs1, o⟩
    cases o with
    | next acc' =>
      rw [processLines_cons_next chatId now acc acc' l ls evs1 hl] at h
      rcases hls : processLines chatId now acc' ls with ⟨evs2, o2⟩
      rw [hls] at h
      injection h with h1 h2
      subst h1
      rw [terminalCount_append, processLine_next_tc chatId now acc l evs1 acc' hl,
        ih acc' evs2 a (by rw [hls]; exact congrArg (Prod.mk evs2) h2)]
    | settled =>
      rw [processLines_cons_settled chatId now acc l ls evs1 hl] at h
      injection h with _ h2
      exact (FrameOutcome.noConfusion h2)

theorem processLines_settled_shape (chatId : String) (now : Nat) :
    ∀ (ls : List (List Char)) (acc : String) (evs : List Event),
    processLines chatId now acc ls = (evs, .settled) →
    ∃ pre m, evs = pre ++ [Event.messageComplete m] ∧ terminalCount pre = 0 := by
  intro ls
  induction ls with
  | nil =>
    intro acc evs h
    injection h with _ h2
    exact (FrameOutcome.noConfusion h2)
  | cons l ls ih =>
    intro acc evs h
    rcases hl : processLine chatId now acc l with ⟨evs1, o⟩
    cases o with
    | next acc' =>
      rw [processLines_cons_next chatId now acc acc' l ls evs1 hl] at h
      rcases hls : processLines chatId now acc' ls with ⟨evs2, o2⟩
      rw [hls] at h
      injection h with h1 h2
      subst h1
      obtain ⟨pre, m, hpre, htc⟩ := ih acc' evs2 (by rw [hls]; exact congrArg (Prod.mk evs2) h2)
      refine ⟨evs1 ++ pre, m, by rw [hpre, List.append_assoc], ?_⟩
      rw [terminalCount_append, processLine_next_tc chatId now acc l evs1 acc' hl, htc]
    | settled =>
      rw [processLines_cons_settled chatId now acc l ls evs1 hl] at h
      injection h with h1 _
      subst h1
      obtain ⟨m, hm⟩ := processLine_settled_shape chatId now acc l evs1 hl
      exact ⟨[], m, by rw [hm]; rfl, rfl⟩

theorem runLoop_terminal_spec (chatId : String) (now : Nat) :
    ∀ (inputs : List StreamInput) (acc : String),
    terminalCount (runLoop chatId now acc inputs)
      = outcomeTerminalCount (runOutcome chatId now acc inputs)
    ∧ noEventAfterTerminalB (runLoop chatId now acc inputs) = true := by
  intro inputs
  induction inputs with
  | nil => intro acc; exact ⟨rfl, rfl⟩
  | cons inp rest ih =>
    intro acc
    cases inp with
    | abortSignal => exact ⟨rfl, rfl⟩
    | transportError => exact ⟨rfl, rfl⟩
    | chunk c =>
      rcases hpl : processLines chatId now acc (splitOnNewline c) with ⟨evs, o⟩
      cases o with
      | next acc' =>
        have htc := processLines_next_tc chatId now (splitOnNewline c) acc evs acc' hpl
        have e1 : runLoop chatId now acc (.chunk c :: rest)
            = evs ++ runLoop chatId now acc' rest := by
          rw [runLoop, hpl]
        have e2 : runOutcome chatId now acc (.chunk c :: rest)
            = runOutcome chatId now acc' rest := by
          rw [runOutcome, hpl]
        rw [e1, e2, terminalCount_append, htc,
          noEventAfterTerminalB_append_left _ _ htc]
        exact ⟨by rw [Nat.zero_add, (ih acc').1], (ih acc').2⟩
      | settled =>
        obtain ⟨pre, m, hpre, hptc⟩ :=
          processLines_settled_shape chatId now (splitOnNewline c) acc evs hpl
        have e1 : runLoop chatId now acc (.chunk c :: rest) = evs := by
          rw [runLoop, hpl]
        have e2 : runOutcome chatId now acc (.chunk c :: rest) = .settledO := by
          rw [runOutcome, hpl]
        rw [e1, e2, hpre]
        constructor
        · rw [terminalCount_append, hptc]; rfl
        · rw [noEventAfterTerminalB_append_left pre _ hptc]; rfl

/-- Claim C7, counterexample: a transport that sends only a
`data: [DONE]` line and then closes produces *zero* terminal callbacks
although the session was never cancelled, refuting "exactly one
terminal callback, or none only in the cancellation case". -/
theorem c7_counterexample :
    ¬ (terminalCount (streamApiResponse "1" 0
          [.chunk ("data: [DONE]".data ++ ['\n'])]) = 1
        ∨ StreamInput.abortSignal ∈
            [StreamInput.chunk ("data: [DONE]".data ++ ['\n'])]) := by
  decide

/-- Claim C7, amended: per session, the number of terminal callbacks
is exactly determined by how the run ends — one for settlement or
transport error, none when cancelled or when the transport ends
without a completion frame — and no callback of any kind fires after a
terminal callback. -/
theorem c7_one_terminal_callback (chatId : String) (now : Nat)
    (inputs : List StreamInput) :
    terminalCount (streamApiResponse chatId now inputs)
      = outcomeTerminalCount (runOutcome chatId now "" inputs)
    ∧ noEventAfterTerminalB (streamApiResponse chatId now inputs) = true :=
  runLoop_terminal_spec chatId now inputs ""

/-- Claim C6: a session cancelled before a completion frame arrives
fires neither `onSettled` nor the error fallback; every event it ever
emitted is an incremental update, so cancellation is never routed
through the failure path. -/
theorem c6_cancelled_session_silent (chatId : String) (now : Nat) (acc : String)
    (inputs : List StreamInput)
    (h : runOutcome chatId now acc inputs = .abortedO) :
    terminalCount (runLoop chatId now acc inputs) = 0
    ∧ ∀ e ∈ runLoop chatId now acc inputs, isTerminalEvent e = false := by
  have hs := (runLoop_terminal_spec chatId now inputs acc).1
  rw [h] at hs
  refine ⟨hs, ?_⟩
  intro e he
  have := List.countP_eq_zero.mp hs e he
  simpa using this

theorem c6_witness :
    runOutcome "1" 0 ""
      [.chunk ("data: \x7b\"type\":\"delta\",\"content\":\"Hi\",\"thread_id\":\"1\",\"session_id\":\"s\",\"has_artifact\":false,\"error_message\":null\x7d\n".data),
       .abortSignal] = .abortedO
    ∧ terminalCount (runLoop "1" 0 ""
        [.chunk ("data: \x7b\"type\":\"delta\",\"content\":\"Hi\",\"thread_id\":\"1\",\"session_id\":\"s\",\"has_artifact\":false,\"error_message\":null\x7d\n".data),
         .abortSignal]) = 0 :=
  ⟨by decide, (c6_cancelled_session_silent "1" 0 "" _ (by decide)).1⟩

/-- Claim C3, evaluated at the failing input: a frame line split
across two transport chunks (`"data:"` then `" {...}\n"`) is silently
lost — each chunk is split on newlines independently and neither
fragment parses — whereas the same bytes in one chunk produce the
delta frame's incremental update. -/
theorem c3_split_line_frame_lost :
    streamApiResponse "1" 0
      [.chunk ("data:".data),
       .chunk (" \x7b\"type\":\"delta\",\"content\":\"Hello\",\"thread_id\":\"1\",\"session_id\":\"s\",\"has_artifact\":false,\"error_message\":null\x7d\n".data)]
      = []
    ∧ streamApiResponse "1" 0
        [.chunk ("data: \x7b\"type\":\"delta\",\"content\":\"Hello\",\"thread_id\":\"1\",\"session_id\":\"s\",\"has_artifact\":false,\"error_message\":null\x7d\n".data)]
      = [.streamingUpdate "Hello"] := by
  constructor
  · decide
  · decide

theorem utf8_ascii (b : Nat) (bs : List Nat) (h : b < 0x80) :
    utf8DecodeCore (b :: bs) = prependCp b (utf8DecodeCore bs) := by
  match bs with
  | [] =>
    conv_lhs => rw [utf8DecodeCore]
    simp only [if_pos h, utf8DecodeCore, prependCp]
  | [b1] =>
    conv_lhs => rw [utf8DecodeCore]
    simp only [if_pos h]
  | [b1, b2] =>
    conv_lhs => rw [utf8DecodeCore]
    simp only [if_pos h]
  | b1 :: b2 :: b3 :: bs' =>
    conv_lhs => rw [utf8DecodeCore]
    simp only [if_pos h]

theorem utf8_lead_pend (b : Nat) (hb : 0xC0 ≤ b) (hb' : b < 0xF8) :
    utf8DecodeCore [b] = ([], [b]) := by
  rw [utf8DecodeCore]
  simp only [if_neg (by omega : ¬ b < 0x80), if_neg (by omega : ¬ b < 0xC0), if_pos hb']

theorem utf8_two (b b1 : Nat) (bs : List Nat) (hb : 0xC0 ≤ b) (hb' : b < 0xE0)
    (h1 : isCont b1 = true) :
    utf8DecodeCore (b :: b1 :: bs) =
      prependCp ((b - 0xC0) * 0x40 + (b1 - 0x80)) (utf8DecodeCore bs) := by
  match bs with
  | [] =>
    conv_lhs => rw [utf8DecodeCore]
    simp only [if_neg (by omega : ¬ b < 0x80), if_neg (by omega : ¬ b < 0xC0),
      if_pos hb', h1, if_pos, utf8DecodeCore, prependCp]
  | [b2] =>
    conv_lhs => rw [utf8DecodeCore]
    simp only [if_neg (by omega : ¬ b < 0x80), if_neg (by omega : ¬ b < 0xC0),
      if_pos hb', h1, if_pos]
  | b2 :: b3 :: bs' =>
    conv_lhs => rw [utf8DecodeCore]
    simp only [if_neg (by omega : ¬ b < 0x80), if_neg (by omega : ¬ b < 0xC0),
      if_pos hb', h1, if_pos]

theorem utf8_three_pend2 (b b1 : Nat) (hb : 0xE0 ≤ b) (hb' : b < 0xF8)
    (h1 : isCont b1 = true) :
    utf8DecodeCore [b, b1] = ([], [b, b1]) := by
  rw [utf8DecodeCore]
  simp only [if_neg (by omega : ¬ b < 0x80), if_neg (by omega : ¬ b < 0xC0),
    if_neg (by omega : ¬ b < 0xE0), if_pos hb', h1, if_pos]

theorem utf8_three (b b1 b2 : Nat) (bs : List Nat) (hb : 0xE0 ≤ b) (hb' : b < 0xF0)
    (h1 : isCont b1 = true) (h2 : isCont b2 = true) :
    utf8DecodeCore (b :: b1 :: b2 :: bs) =
      prependCp ((b - 0xE0) * 0x1000 + (b1 - 0x80) * 0x40 + (b2 - 0x80))
        (utf8DecodeCore bs) := by
  match bs with
  | [] =>
    conv_lhs => rw [utf8DecodeCore]
    simp only [if_neg (by omega : ¬ b < 0x80), if_neg (by omega : ¬ b < 0xC0),
      if_neg (by omega : ¬ b < 0xE0), if_pos hb', h1, h2, Bool.and_self, if_pos,
      utf8DecodeCore, prependCp]
  | b3 :: bs' =>
    conv_lhs => rw [utf8DecodeCore]
    simp only [if_neg (by omega : ¬ b < 0x80), if_neg (by omega : ¬ b < 0xC0),
      if_neg (by omega : ¬ b < 0xE0), if_pos hb', h1, h2, Bool.and_self, if_pos]

theorem utf8_four_pend3 (b b1 b2 : Nat) (hb : 0xF0 ≤ b) (hb' : b < 0xF8)
    (h1 : isCont b1 = true) (h2 : isCont b2 = true) :
    utf8DecodeCore [b, b1, b2] = ([], [b, b1, b2]) := by
  rw [utf8DecodeCore]
  simp only [if_neg (by omega : ¬ b < 0x80), if_neg (by omega : ¬ b < 0xC0),
    if_neg (by omega : ¬ b < 0xE0), if_neg (by omega : ¬ b < 0xF0), if_pos hb', h1, h2,
    Bool.and_self, if_pos]

theorem utf8_four (b b1 b2 b3 : Nat) (bs : List Nat) (hb : 0xF0 ≤ b) (hb' : b < 0xF8)
    (h1 : isCont b1 = true) (h2 : isCont b2 = true) (h3 : isCont b3 = true) :
    utf8DecodeCore (b :: b1 :: b2 :: b3 :: bs) =
      prependCp
        ((b - 0xF0) * 0x40000 + (b1 - 0x80) * 0x1000 + (b2 - 0x80) * 0x40 + (b3 - 0x80))
        (utf8DecodeCore bs) := by
  conv_lhs => rw [utf8DecodeCore]
  simp only [if_neg (by omega : ¬ b < 0x80), if_neg (by omega : ¬ b < 0xC0),
    if_neg (by omega : ¬ b < 0xE0), if_neg (by omega : ¬ b < 0xF0), if_pos hb', h1, h2, h3,
    Bool.and_self, if_pos]



theorem validUtf8B_inv (b : Nat) (rest : List Nat)
    (hv : validUtf8B (b :: rest) = true) :
    (b < 0x80 ∧ validUtf8B rest = true)
    ∨ (∃ b1 rest', rest = b1 :: rest' ∧ 0xC2 ≤ b ∧ b < 0xE0 ∧ isCont b1 = true
        ∧ validUtf8B rest' = true)
    ∨ (∃ b1 b2 rest', rest = b1 :: b2 :: rest' ∧ 0xE0 ≤ b ∧ b < 0xF0
        ∧ isCont b1 = true ∧ isCont b2 = true ∧ validUtf8B rest' = true)
    ∨ (∃ b1 b2 b3 rest', rest = b1 :: b2 :: b3 :: rest' ∧ 0xF0 ≤ b ∧ b < 0xF5
        ∧ isCont b1 = true ∧ isCont b2 = true ∧ isCont b3 = true
        ∧ validUtf8B rest' = true) := by
  rcases rest with _ | ⟨b1, _ | ⟨b2, _ | ⟨b3, bs⟩⟩⟩
  · rw [validUtf8B] at hv
    exact Or.inl ⟨by simpa using hv, by simp [validUtf8B]⟩
  · rw [validUtf8B] at hv
    split at hv
    · exact Or.inl ⟨by assumption, hv⟩
    · simp only [Bool.and_eq_true, decide_eq_true_eq] at hv
      exact Or.inr (Or.inl ⟨b1, [], rfl, hv.1.1, hv.1.2, hv.2, by simp [validUtf8B]⟩)
  · rw [validUtf8B] at hv
    split at hv
    · exact Or.inl ⟨by assumption, hv⟩
    · split at hv
      · rename_i hc
        simp only [Bool.and_eq_true, decide_eq_true_eq] at hc hv
        exact Or.inr (Or.inl ⟨b1, [b2], rfl, hc.1, hc.2, hv.1, hv.2⟩)
      · simp only [Bool.and_eq_true, decide_eq_true_eq] at hv
        exact Or.inr (Or.inr (Or.inl ⟨b1, b2, [], rfl, hv.1.1.1, hv.1.1.2, hv.1.2, hv.2,
          by simp [validUtf8B]⟩))
  · rw [validUtf8B] at hv
    split at hv
    · exact Or.inl ⟨by assumption, hv⟩
    · split at hv
      · rename_i hc
        simp only [Bool.and_eq_true, decide_eq_true_eq] at hc hv
        exact Or.inr (Or.inl ⟨b1, b2 :: b3 :: bs, rfl, hc.1, hc.2, hv.1, hv.2⟩)
      · split at hv
        · rename_i hc
          simp only [Bool.and_eq_true, decide_eq_true_eq] at hc hv
          exact Or.inr (Or.inr (Or.inl ⟨b1, b2, b3 :: bs, rfl, hc.1, hc.2, hv.1.1, hv.1.2,
            hv.2⟩))
        · split at hv
          · rename_i hc
            simp only [Bool.and_eq_true, decide_eq_true_eq] at hc hv
            exact Or.inr (Or.inr (Or.inr ⟨b1, b2, b3, bs, rfl, hc.1, hc.2, hv.1.1.1,
              hv.1.1.2, hv.1.2, hv.2⟩))
          · simp at hv

theorem utf8_pending_empty : ∀ (n : Nat) (bs : List Nat), bs.length ≤ n →
    validUtf8B bs = true → (utf8DecodeCore bs).2 = [] := by
  intro n
  induction n with
  | zero =>
    intro bs hlen _
    have : bs = [] := List.eq_nil_of_length_eq_zero (Nat.le_zero.mp hlen)
    subst this
    simp [utf8DecodeCore]
  | succ n ih =>
    intro bs hlen hv
    match bs with
    | [] => simp [utf8DecodeCore]
    | b :: rest =>
      rcases validUtf8B_inv b rest hv with
        ⟨hb, hvr⟩
        | ⟨b1, rest', rfl, hb, hb', h1, hvr⟩
        | ⟨b1, b2, rest', rfl, hb, hb', h1, h2, hvr⟩
        | ⟨b1, b2, b3, rest', rfl, hb, hb', h1, h2, h3, hvr⟩
      · rw [utf8_ascii b rest hb, prependCp]
        exact ih rest (by simp at hlen; omega) hvr
      · rw [utf8_two b b1 rest' (by omega) hb' h1, prependCp]
        exact ih rest' (by simp at hlen; omega) hvr
      · rw [utf8_three b b1 b2 rest' hb (by omega) h1 h2, prependCp]
        exact ih rest' (by simp at hlen; omega) hvr
      · rw [utf8_four b b1 b2 b3 rest' hb (by omega) h1 h2 h3, prependCp]
        exact ih rest' (by simp at hlen; omega) hvr

theorem utf8_split_aux : ∀ (n : Nat) (bs : List Nat), bs.length ≤ n →
    validUtf8B bs = true → ∀ i : Nat,
    (utf8DecodeCore (bs.take i)).1
        ++ (utf8DecodeCore ((utf8DecodeCore (bs.take i)).2 ++ bs.drop i)).1
      = (utf8DecodeCore bs).1
    ∧ (utf8DecodeCore ((utf8DecodeCore (bs.take i)).2 ++ bs.drop i)).2
      = (utf8DecodeCore bs).2 := by
  intro n
  induction n with
  | zero =>
    intro bs hlen _ i
    have : bs = [] := List.eq_nil_of_length_eq_zero (Nat.le_zero.mp hlen)
    subst this
    simp [utf8DecodeCore]
  | succ n ih =>
    intro bs hlen hv i
    rcases i with _ | i
    · simp [utf8DecodeCore]
    · match bs, hv with
      | [], _ => simp [utf8DecodeCore]
      | b :: rest, hv =>
        rcases validUtf8B_inv b rest hv with
          ⟨hb, hvr⟩
          | ⟨b1, rest', rfl, hb, hb', h1, hvr⟩
          | ⟨b1, b2, rest', rfl, hb, hb', h1, h2, hvr⟩
          | ⟨b1, b2, b3, rest', rfl, hb, hb', h1, h2, h3, hvr⟩
        · -- ASCII byte
          have hlen' : rest.length ≤ n := by simp at hlen; omega
          have step1 := utf8_ascii b (rest.take i) hb
          have step2 := utf8_ascii b rest hb
          have IH := ih rest hlen' hvr i
          simp only [List.take_succ_cons, List.drop_succ_cons, step1, step2, prependCp,
            List.cons_append]
          exact ⟨by rw [IH.1], IH.2⟩
        · -- two-byte sequence
          have hlen' : rest'.length ≤ n := by simp at hlen; omega
          rcases i with _ | i
          · -- split after the lead byte
            simp only [List.take_succ_cons, List.take_zero, List.drop_succ_cons,
              List.drop_zero, utf8_lead_pend b (by omega) (by omega), List.nil_append,
              List.cons_append, List.singleton_append]
            exact ⟨trivial, trivial⟩
          · -- split after the complete sequence or later
            have step1 := utf8_two b b1 (rest'.take i) (by omega) hb' h1
            have step2 := utf8_two b b1 rest' (by omega) hb' h1
            have IH := ih rest' hlen' hvr i
            simp only [List.take_succ_cons, List.drop_succ_cons, step1, step2, prependCp,
              List.cons_append]
            exact ⟨by rw [IH.1], IH.2⟩
        · -- three-byte sequence
          have hlen' : rest'.length ≤ n := by simp at hlen; omega
          rcases i with _ | (_ | i)
          · simp only [List.take_succ_cons, List.take_zero, List.drop_succ_cons,
              List.drop_zero, utf8_lead_pend b (by omega) (by omega), List.nil_append,
              List.cons_append, List.singleton_append]
            exact ⟨trivial, trivial⟩
          · simp only [List.take_succ_cons, List.take_zero, List.drop_succ_cons,
              List.drop_zero, utf8_three_pend2 b b1 hb (by omega) h1, List.nil_append,
              List.cons_append]
            exact ⟨trivial, trivial⟩
          · have step1 := utf8_three b b1 b2 (rest'.take i) hb hb' h1 h2
            have step2 := utf8_three b b1 b2 rest' hb hb' h1 h2
            have IH := ih rest' hlen' hvr i
            simp only [List.take_succ_cons, List.drop_succ_cons, step1, step2, prependCp,
              List.cons_append]
            exact ⟨by rw [IH.1], IH.2⟩
        · -- four-byte sequence
          have hlen' : rest'.length ≤ n := by simp at hlen; omega
          rcases i with _ | (_ | (_ | i))
          · simp only [List.take_succ_cons, List.take_zero, List.drop_succ_cons,
              List.drop_zero, utf8_lead_pend b (by omega) (by omega), List.nil_append,
              List.cons_append, List.singleton_append]
            exact ⟨trivial, trivial⟩
          · simp only [List.take_succ_cons, List.take_zero, List.drop_succ_cons,
              List.drop_zero, utf8_three_pend2 b b1 (by omega) (by omega) h1,
              List.nil_append, List.cons_append]
            exact ⟨trivial, trivial⟩
          · simp only [List.take_succ_cons, List.take_zero, List.drop_succ_cons,
              List.drop_zero, utf8_four_pend3 b b1 b2 (by omega) (by omega) h1 h2,
              List.nil_append, List.cons_append]
            exact ⟨trivial, trivial⟩
          · have step1 := utf8_four b b1 b2 b3 (rest'.take i) (by omega) (by omega) h1 h2 h3
            have step2 := utf8_four b b1 b2 b3 rest' (by omega) (by omega) h1 h2 h3
            have IH := ih rest' hlen' hvr i
            simp only [List.take_succ_cons, List.drop_succ_cons, step1, step2, prependCp,
              List.cons_append]
            exact ⟨by rw [IH.1], IH.2⟩

/-- Claim C8: streaming UTF-8 decoding is invariant under
re-chunking — splitting a valid byte sequence at any position,
including inside a multi-byte character, decodes to exactly the same
code points as delivering it in one chunk, because the decoder buffers
the incomplete trailing sequence. -/
theorem c8_decode_rechunk_invariant (bs : List Nat) (i : Nat)
    (hv : validUtf8B bs = true) :
    decodeChunks [bs.take i, bs.drop i] = decodeChunks [bs] := by
  have h := utf8_split_aux bs.length bs (Nat.le_refl _) hv i
  simp only [decodeChunks, decodeChunksAux, List.nil_append]
  rw [Prod.ext_iff]
  exact ⟨h.1, h.2⟩

theorem c8_witness :
    validUtf8B [0xC3, 0xA9] = true
    ∧ decodeChunks [List.take 1 [0xC3, 0xA9], List.drop 1 [0xC3, 0xA9]]
      = decodeChunks [[0xC3, 0xA9]] :=
  ⟨by decide, c8_decode_rechunk_invariant [0xC3, 0xA9] 1 (by decide)⟩

theorem maxStartedFrom_append (t u : List TraceEntry) :
    ∀ m, maxStartedFrom m (t ++ u) = maxStartedFrom (maxStartedFrom m t) u := by
  induction t with
  | nil => intro m; rfl
  | cons e t ih =>
    intro m
    cases e with
    | started b => rw [List.cons_append, maxStartedFrom, maxStartedFrom, ih]
    | emitted a ev => rw [List.cons_append, maxStartedFrom, maxStartedFrom, ih]

theorem noLateEmitAux_append (t u : List TraceEntry) :
    ∀ m, noLateEmitAux m (t ++ u)
      = (noLateEmitAux m t && noLateEmitAux (maxStartedFrom m t) u) := by
  induction t with
  | nil => intro m; rfl
  | cons e t ih =>
    intro m
    cases e with
    | started b =>
      rw [List.cons_append, noLateEmitAux, noLateEmitAux, ih, maxStartedFrom]
    | emitted a ev =>
      rw [List.cons_append, noLateEmitAux, noLateEmitAux, ih, maxStartedFrom]
      cases decide (m ≤ a) <;> simp

theorem maxStartedFrom_map_emitted (evs : List Event) (sid : Nat) :
    ∀ m, maxStartedFrom m (evs.map (TraceEntry.emitted sid)) = m := by
  induction evs with
  | nil => intro m; rfl
  | cons e evs ih => intro m; rw [List.map_cons, maxStartedFrom, ih]

theorem noLateEmitAux_map_emitted (evs : List Event) (sid : Nat) (m : Nat)
    (h : m ≤ sid) : noLateEmitAux m (evs.map (TraceEntry.emitted sid)) = true := by
  induction evs with
  | nil => rfl
  | cons e evs ih => rw [List.map_cons, noLateEmitAux, ih]; simp [h]

theorem maxStartedFrom_started (m b : Nat) :
    maxStartedFrom m [TraceEntry.started b] = max m b := rfl

theorem noLateEmitAux_started (m b : Nat) :
    noLateEmitAux m [TraceEntry.started b] = true := rfl

theorem filter_active_le_one :
    ∀ (l : List Session), l.Pairwise (fun a b => a.sid ≠ b.sid) →
    (∀ s ∈ l, ∀ t ∈ l, activeS s = true → activeS t = true → s.sid = t.sid) →
    (l.filter (fun s => activeS s)).length ≤ 1 := by
  intro l
  induction l with
  | nil => intro _ _; simp
  | cons s l ih =>
    intro hp hc
    rw [List.pairwise_cons] at hp
    by_cases ha : activeS s = true
    · rw [List.filter_cons_of_pos (by simpa using ha)]
      have hnil : l.filter (fun s => activeS s) = [] := by
        rw [List.filter_eq_nil_iff]
        intro t ht hat
        exact hp.1 t ht
          (hc s (List.mem_cons_self s l) t (List.mem_cons_of_mem s ht) ha
            (by simpa using hat))
      rw [hnil]
      exact Nat.le_refl 1
    · rw [List.filter_cons_of_neg (by simpa using ha)]
      exact ih hp.2 fun a hal t htl => hc a (List.mem_cons_of_mem s hal) t
        (List.mem_cons_of_mem s htl)

theorem inv_send (st : AppState) (msg : String) (inputs : List StreamInput)
    (h : InvS st) : InvS (appStep st (.send msg inputs)) := by
  rw [appStep]
  split_ifs with hg
  · exact h
  · have hns : ¬ st.isStreaming := fun hs => hg (Or.inr hs)
    have hnoact : ∀ s ∈ st.sessions, activeS s = false := by
      intro s hs
      by_cases ha : activeS s = true
      · exact absurd (h.active_streaming s hs ha) hns
      · simpa using ha
    refine ⟨?_, ?_, ?_, ?_, ?_, ?_, ?_⟩
    · intro s hs ha
      rfl
    · intro s hs ha
      rcases List.mem_cons.mp hs with rfl | hmem
      · rfl
      · exact absurd ha (by simp [hnoact s hmem])
    · intro s hs
      rcases List.mem_cons.mp hs with rfl | hmem
      · exact Nat.lt_succ_self _
      · exact Nat.lt_succ_of_lt (h.sid_lt s hmem)
    · rw [List.pairwise_cons]
      exact ⟨fun t ht => Nat.ne_of_gt (h.sid_lt t ht), h.sid_distinct⟩
    · rw [maxStartedFrom_append, maxStartedFrom_started]
      exact max_le (Nat.le_succ_of_le h.maxStarted_le) (Nat.le_succ _)
    · intro s hs ha
      rcases List.mem_cons.mp hs with rfl | hmem
      · rw [maxStartedFrom_append, maxStartedFrom_started]
        exact max_le h.maxStarted_le (Nat.le_refl _)
      · exact absurd ha (by simp [hnoact s hmem])
    · rw [noLateEmitAux_append, h.noLate, noLateEmitAux_started]
      rfl

theorem abortCurrent_no_active (st : AppState) (h : InvS st) :
    ∀ s' ∈ (abortCurrent st).sessions, activeS s' = false := by
  intro s' hs'
  rw [abortCurrent] at hs'
  obtain ⟨s, hs, rfl⟩ := List.mem_map.mp hs'
  by_cases hc : st.currentSid = some s.sid
  · rw [if_pos hc]
    simp [activeS]
  · rw [if_neg hc]
    by_cases ha : activeS s = true
    · exact absurd (h.active_current s hs ha) hc
    · simpa using ha

theorem inv_abortReset (st : AppState) (c : String) (h : InvS st) :
    InvS { abortCurrent st with chatId := c, isStreaming := false } := by
  have hnoact := abortCurrent_no_active st h
  refine ⟨?_, ?_, ?_, ?_, ?_, ?_, ?_⟩
  · intro s hs ha
    exact absurd ha (by simp [hnoact s hs])
  · intro s hs ha
    exact absurd ha (by simp [hnoact s hs])
  · intro s hs
    rw [abortCurrent] at hs
    obtain ⟨t, ht, rfl⟩ := List.mem_map.mp hs
    by_cases hc2 : st.currentSid = some t.sid
    · rw [if_pos hc2]; exact h.sid_lt t ht
    · rw [if_neg hc2]; exact h.sid_lt t ht
  · show ((abortCurrent st).sessions).Pairwise _
    rw [abortCurrent]
    refine List.Pairwise.map _ ?_ h.sid_distinct
    intro a b hab
    have hsa : (if st.currentSid = some a.sid
        then { a with aborted := true, finished := true } else a).sid = a.sid := by
      split_ifs <;> rfl
    have hsb : (if st.currentSid = some b.sid
        then { b with aborted := true, finished := true } else b).sid = b.sid := by
      split_ifs <;> rfl
    show ¬ _ = _
    rw [hsa, hsb]
    exact hab
  · exact h.maxStarted_le
  · intro s hs ha
    exact absurd ha (by simp [hnoact s hs])
  · exact h.noLate

theorem inv_finalize (st : AppState) (sid : Nat) (h : InvS st)
    (hall : ∀ t ∈ st.sessions, activeS t = true → t.sid = sid) :
    InvS (finalizeSession st sid) := by
  have hnoact : ∀ t' ∈ (finalizeSession st sid).sessions, activeS t' = false := by
    intro t' ht'
    rw [finalizeSession] at ht'
    obtain ⟨t, ht, rfl⟩ := List.mem_map.mp ht'
    by_cases hts : t.sid = sid
    · rw [if_pos hts]
      simp [activeS]
    · rw [if_neg hts]
      by_cases ha : activeS t = true
      · exact absurd (hall t ht ha) hts
      · simpa using ha
  refine ⟨?_, ?_, ?_, ?_, ?_, ?_, ?_⟩
  · intro t ht ha
    exact absurd ha (by simp [hnoact t ht])
  · intro t ht ha
    exact absurd ha (by simp [hnoact t ht])
  · intro t ht
    rw [finalizeSession] at ht
    obtain ⟨u, hu, rfl⟩ := List.mem_map.mp ht
    by_cases hus : u.sid = sid
    · rw [if_pos hus]; exact h.sid_lt u hu
    · rw [if_neg hus]; exact h.sid_lt u hu
  · show ((finalizeSession st sid).sessions).Pairwise _
    rw [finalizeSession]
    refine List.Pairwise.map _ ?_ h.sid_distinct
    intro a b hab
    have hsa : (if a.sid = sid then { a with finished := true } else a).sid = a.sid := by
      split_ifs <;> rfl
    have hsb : (if b.sid = sid then { b with finished := true } else b).sid = b.sid := by
      split_ifs <;> rfl
    show ¬ _ = _
    rw [hsa, hsb]
    exact hab
  · exact h.maxStarted_le
  · intro t ht ha
    exact absurd ha (by simp [hnoact t ht])
  · exact h.noLate

theorem inv_extend_trace_emitted (st : AppState) (sid : Nat) (evs : List Event)
    (h : InvS st) (hms : maxStartedFrom 0 st.trace ≤ sid) :
    InvS { st with trace := st.trace ++ evs.map (TraceEntry.emitted sid) } := by
  refine ⟨h.active_streaming, h.active_current, h.sid_lt, h.sid_distinct, ?_, ?_, ?_⟩
  · show maxStartedFrom 0 (st.trace ++ _) ≤ _
    rw [maxStartedFrom_append, maxStartedFrom_map_emitted]
    exact h.maxStarted_le
  · intro t ht ha
    show maxStartedFrom 0 (st.trace ++ _) ≤ _
    rw [maxStartedFrom_append, maxStartedFrom_map_emitted]
    exact h.active_maxStarted t ht ha
  · show noLateEmitAux 0 (st.trace ++ _) = true
    rw [noLateEmitAux_append, h.noLate,
      noLateEmitAux_map_emitted evs sid (maxStartedFrom 0 st.trace) hms]
    rfl

theorem inv_update_session (st : AppState) (sid : Nat) (rest : List StreamInput)
    (acc' : String) (evs : List Event) (h : InvS st)
    (hms : maxStartedFrom 0 st.trace ≤ sid) :
    InvS { st with
      sessions := st.sessions.map fun t =>
        if t.sid = sid then { t with inputs := rest, acc := acc' } else t
      trace := st.trace ++ evs.map (TraceEntry.emitted sid) } := by
  have hpres : ∀ t : Session,
      activeS (if t.sid = sid then { t with inputs := rest, acc := acc' } else t)
        = activeS t := by
    intro t; split_ifs <;> rfl
  have hsidp : ∀ t : Session,
      (if t.sid = sid then { t with inputs := rest, acc := acc' } else t).sid
        = t.sid := by
    intro t; split_ifs <;> rfl
  refine ⟨?_, ?_, ?_, ?_, ?_, ?_, ?_⟩
  · intro t' ht' ha
    obtain ⟨t, ht, rfl⟩ := List.mem_map.mp ht'
    rw [hpres t] at ha
    exact h.active_streaming t ht ha
  · intro t' ht' ha
    obtain ⟨t, ht, rfl⟩ := List.mem_map.mp ht'
    rw [hpres t] at ha
    show st.currentSid = some _
    rw [hsidp t]
    exact h.active_current t ht ha
  · intro t' ht'
    obtain ⟨t, ht, rfl⟩ := List.mem_map.mp ht'
    show _ < st.nextSid
    rw [hsidp t]
    exact h.sid_lt t ht
  · refine List.Pairwise.map _ ?_ h.sid_distinct
    intro a b hab
    show ¬ _ = _
    rw [hsidp a, hsidp b]
    exact hab
  · show maxStartedFrom 0 (st.trace ++ _) ≤ _
    rw [maxStartedFrom_append, maxStartedFrom_map_emitted]
    exact h.maxStarted_le
  · intro t' ht' ha
    obtain ⟨t, ht, rfl⟩ := List.mem_map.mp ht'
    rw [hpres t] at ha
    show maxStartedFrom 0 (st.trace ++ _) ≤ _
    rw [maxStartedFrom_append, maxStartedFrom_map_emitted, hsidp t]
    exact h.active_maxStarted t ht ha
  · show noLateEmitAux 0 (st.trace ++ _) = true
    rw [noLateEmitAux_append, h.noLate,
      noLateEmitAux_map_emitted evs sid (maxStartedFrom 0 st.trace) hms]
    rfl

theorem inv_sessionStep (st : AppState) (sid : Nat) (h : InvS st) :
    InvS (sessionStepFn st sid) := by
  rw [sessionStepFn]
  cases hf : st.sessions.find? (fun s => s.sid = sid) with
  | none => exact h
  | some s =>
    have hmem : s ∈ st.sessions := List.mem_of_find?_eq_some hf
    have hssid : s.sid = sid := by simpa using List.find?_some hf
    show InvS (if (s.aborted || s.finished) = true then st
      else sessionStepInput st sid s)
    split_ifs with haf
    · exact h
    · simp only [Bool.or_eq_true] at haf
      have hab : s.aborted = false := by
        cases hc : s.aborted
        · rfl
        · exact absurd (Or.inl hc) haf
      have hfin : s.finished = false := by
        cases hc : s.finished
        · rfl
        · exact absurd (Or.inr hc) haf
      have hact : activeS s = true := by simp [activeS, hab, hfin]
      have hall : ∀ t ∈ st.sessions, activeS t = true → t.sid = sid := by
        intro t ht hat
        have h1 := h.active_current t ht hat
        have h2 := h.active_current s hmem hact
        rw [h1] at h2
        injection h2 with h3
        rw [h3, hssid]
      have hms : maxStartedFrom 0 st.trace ≤ sid := by
        rw [← hssid]
        exact h.active_maxStarted s hmem hact
      rw [sessionStepInput]
      cases hi : s.inputs with
      | nil => exact inv_finalize st sid h hall
      | cons inp rest =>
        cases inp with
        | abortSignal => exact inv_finalize st sid h hall
        | transportError =>
          exact inv_finalize _ sid
            (inv_extend_trace_emitted st sid
              [.errorFallback ⟨toString st.now, "assistant", apologyText, st.now⟩] h hms)
            hall
        | chunk c =>
          show InvS (sessionStepChunk st sid s c rest)
          rw [sessionStepChunk]
          rcases hpl : processLines s.chatId st.now s.acc (splitOnNewline c)
            with ⟨evs, o⟩
          cases o with
          | next acc' => exact inv_update_session st sid rest acc' evs h hms
          | settled =>
            exact inv_finalize _ sid (inv_extend_trace_emitted st sid evs h hms) hall

theorem inv_init (chatId0 : String) (now : Nat) : InvS (initState chatId0 now) := by
  refine ⟨?_, ?_, ?_, ?_, ?_, ?_, ?_⟩ <;>
    simp [initState, maxStartedFrom, noLateEmitAux]

theorem inv_step (st : AppState) (a : Action) (h : InvS st) : InvS (appStep st a) := by
  cases a with
  | send msg inputs => exact inv_send st msg inputs h
  | switchChat newId => exact inv_abortReset st newId h
  | stop => exact inv_abortReset st (abortCurrent st).chatId h
  | sessionStep sid => exact inv_sessionStep st sid h

theorem inv_foldl : ∀ (acts : List Action) (st : AppState), InvS st →
    InvS (acts.foldl appStep st) := by
  intro acts
  induction acts with
  | nil => intro st h; exact h
  | cons a acts ih => intro st h; exact ih _ (inv_step st a h)

/-- Claim C4: in every reachable component state, at most one
session is active (able to emit callbacks), and the trace never shows
a callback from an older session after a newer session started —
starting a new session is only possible once the previous one has been
cancelled or finished. -/
theorem c4_single_active_session (chatId0 : String) (now : Nat) (acts : List Action) :
    countActive (runApp chatId0 now acts) ≤ 1
    ∧ noLateEmitAux 0 (runApp chatId0 now acts).trace = true := by
  have h := inv_foldl acts (initState chatId0 now) (inv_init chatId0 now)
  refine ⟨?_, h.noLate⟩
  rw [countActive]
  apply filter_active_le_one _ h.sid_distinct
  intro s hs t ht has hat
  have h1 := h.active_current s hs has
  have h2 := h.active_current t ht hat
  rw [h1] at h2
  injection h2

end Chatbot
